import Mathlib

/-!
Shallow embedding of the date-window selection, message-composition and
recipient-validation core of `script.js` (community-group-google-scripts).

Modelling conventions:
- A JavaScript `Date` is its millisecond timestamp (`Int`); an Invalid Date
  (`NaN` internal time value) is `none` in `Option Int`.  The script timezone
  (a fixed configured zone) is modelled with offset 0, so local time equals
  UTC; a fixed offset shifts every construction and comparison uniformly and
  cancels out of all properties stated here.  No DST transitions are modelled
  (the spec's non-goals exclude timezone-database handling).
- Sheet cells and the loosely-typed base-date argument are `JSVal` values.
- `new Date(string)` for strings is well-specified by ECMAScript only for the
  ISO date format; other formats are implementation-defined.  The generic
  string parse is therefore modelled as the ISO `yyyy-mm-dd` parse (UTC
  midnight), and every other string yields an Invalid Date.  No claim below
  depends on which extra string formats a particular engine accepts.
- JS `String.prototype.length` counts UTF-16 units; `String.length` here
  counts characters, which agrees on the basic multilingual plane.
-/

/-- Milliseconds per day. -/
def msPerDay : Int := 86400000

/-- Milliseconds of the pinned hour used by `setHours(12, 0, 0, 0)`. -/
def noonMs : Int := 43200000

/-- Effect of `d.setHours(12, 0, 0, 0)` on a valid timestamp: keep the
(local) day, pin the time of day to noon. -/
def atNoon (t : Int) : Int := (t / msPerDay) * msPerDay + noonMs

/-- Effect of `d.setDate(d.getDate() + n)` on a valid timestamp: add `n`
calendar days (month/year rollover included), keeping the time of day.
Day indices are floor-divisions by `msPerDay`; `Int./` is Euclidean division,
which coincides with floor division for the positive divisor `msPerDay`. -/
def jsAddDays (t : Int) (n : Int) : Int := (t / msPerDay + n) * msPerDay + t % msPerDay

/-- Day number (days since 1970-01-01) of the civil date `y-m-d`, `m` in 1..12.
Standard civil-from-days algorithm; for `m` outside 1..12 or `d` outside the
month this extends linearly, matching no civil date. -/
def daysFromCivil (y m d : Int) : Int :=
  let yy := if m ≤ 2 then y - 1 else y
  let era := yy / 400
  let yoe := yy - era * 400
  let mp := m + (if m > 2 then -3 else 9)
  let doy := (153 * mp + 2) / 5 + d - 1
  let doe := yoe * 365 + yoe / 4 - yoe / 100 + doy
  era * 146097 + doe - 719468

/-- ECMAScript `MakeDay(y, m, d)` with `m` 0-based: normalize the month into
the year (`ym = y + floor(m / 12)`, `mn = m mod 12`), then the day number of
day `d` counted from the first of that month. -/
def makeDay (y m d : Int) : Int :=
  let ym := y + m / 12
  let mn := m % 12
  daysFromCivil ym (mn + 1) d

/-- Civil date `(year, month, day)` of a day number; inverse of
`daysFromCivil` on civil dates (standard algorithm). -/
def civilFromDays (z : Int) : Int × Int × Int :=
  let zz := z + 719468
  let era := zz / 146097
  let doe := zz - era * 146097
  let yoe := (doe - doe / 1460 + doe / 36524 - doe / 146096) / 365
  let y := yoe + era * 400
  let doy := doe - (365 * yoe + yoe / 4 - yoe / 100)
  let mp := (5 * doy + 2) / 153
  let d := doy - (153 * mp + 2) / 5 + 1
  let m := mp + (if mp < 10 then 3 else -9)
  (y + (if m ≤ 2 then 1 else 0), m, d)

/-- Leap-year predicate of the proleptic Gregorian calendar. -/
def isLeap (y : Int) : Bool := (y % 4 = 0 && y % 100 ≠ 0) || y % 400 = 0

/-- Number of days of month `m` (1..12) of year `y`. -/
def daysInMonth (y m : Int) : Int :=
  if m = 2 then (if isLeap y then 29 else 28)
  else if m = 4 ∨ m = 6 ∨ m = 9 ∨ m = 11 then 30
  else 31

/-- Decimal digit character. -/
def digitChar : Nat → Char
  | 0 => '0' | 1 => '1' | 2 => '2' | 3 => '3' | 4 => '4'
  | 5 => '5' | 6 => '6' | 7 => '7' | 8 => '8' | _ => '9'

/-- Decimal digits, fuel-indexed for structural recursion; the fuel is an
upper bound on the number of digits, with `n + 1` always sufficient. -/
def natToCharsAux : Nat → Nat → List Char
  | 0, _ => []
  | f + 1, n =>
    if n < 10 then [digitChar n]
    else natToCharsAux f (n / 10) ++ [digitChar (n % 10)]

/-- Decimal digits of a natural number, most significant first. -/
def natToChars (n : Nat) : List Char := natToCharsAux (n + 1) n

/-- Decimal rendering of a natural number. -/
def natToString (n : Nat) : String := ⟨natToChars n⟩

/-- Decimal rendering of an integer (JS `ToString` on an integral number). -/
def intToString (x : Int) : String :=
  if x < 0 then "-" ++ natToString x.natAbs else natToString x.natAbs

/-- Two-digit zero-padded rendering of a field value in 0..99. -/
def pad2 (x : Int) : String :=
  if x < 10 then "0" ++ intToString x else intToString x

/-- Whitespace test used by `String.prototype.trim`. -/
def isWS (c : Char) : Bool := c.isWhitespace

/-- Characters of a string after `trim`: drop whitespace from both ends. -/
def trimChars (cs : List Char) : List Char :=
  ((cs.dropWhile isWS).reverse.dropWhile isWS).reverse

/-- JS `String.prototype.trim`. -/
def jsTrim (s : String) : String := ⟨trimChars s.data⟩

/-- JS `String.prototype.toLowerCase` (character-wise lowering). -/
def jsToLower (s : String) : String := ⟨s.data.map Char.toLower⟩

/-- Short weekday name of a day number (day 0, 1970-01-01, was a Thursday). -/
def weekdayShort (day : Int) : String :=
  ["Sun", "Mon", "Tue", "Wed", "Thu", "Fri", "Sat"].getD ((day + 4) % 7).toNat "Sun"

/-- Long weekday name of a day number, as produced by pattern `EEEE`. -/
def weekdayLong (day : Int) : String :=
  ["Sunday", "Monday", "Tuesday", "Wednesday", "Thursday", "Friday",
   "Saturday"].getD ((day + 4) % 7).toNat "Sunday"

/-- Short month name, `m` in 1..12. -/
def monthShort (m : Int) : String :=
  ["Jan", "Feb", "Mar", "Apr", "May", "Jun", "Jul", "Aug", "Sep", "Oct",
   "Nov", "Dec"].getD (m - 1).toNat "Jan"

/-- Long month name, `m` in 1..12, as produced by pattern `MMMM`. -/
def monthLong (m : Int) : String :=
  ["January", "February", "March", "April", "May", "June", "July", "August",
   "September", "October", "November", "December"].getD (m - 1).toNat "January"

/-- Loosely-typed JavaScript values as they occur in sheet cells and as the
optional base-date argument: `undefined`, `null`, booleans, integral numbers,
strings, and `Date` objects (`d none` is an Invalid Date). -/
inductive JSVal where
  | undef
  | null
  | b (x : Bool)
  | n (x : Int)
  | s (x : String)
  | d (t : Option Int)
deriving DecidableEq

/-- JS truthiness. `Date` objects are objects, hence always truthy. -/
def JSVal.truthy : JSVal → Bool
  | .undef => false
  | .null => false
  | .b x => x
  | .n x => x ≠ 0
  | .s x => x ≠ ""
  | .d _ => true

/-- JS `Date.prototype.toString` under the UTC-offset-0 convention. -/
def jsDateToString : Option Int → String
  | none => "Invalid Date"
  | some t =>
    let day := t / msPerDay
    let tod := t % msPerDay
    weekdayShort day ++ " " ++ monthShort (civilFromDays day).2.1 ++ " " ++
      pad2 (civilFromDays day).2.2 ++ " " ++ intToString (civilFromDays day).1 ++
      " " ++ pad2 (tod / 3600000) ++ ":" ++ pad2 (tod % 3600000 / 60000) ++ ":" ++
      pad2 (tod % 60000 / 1000) ++ " GMT+0000 (Coordinated Universal Time)"

/-- JS `ToString` of a value (template-literal interpolation). -/
def JSVal.toStr : JSVal → String
  | .undef => "undefined"
  | .null => "null"
  | .b true => "true"
  | .b false => "false"
  | .n x => intToString x
  | .s x => x
  | .d t => jsDateToString t

/-- Maximal digit run at the head of a character list, and the rest. -/
def leadDigits (cs : List Char) : List Char × List Char :=
  (cs.takeWhile Char.isDigit, cs.dropWhile Char.isDigit)

/-- Numeric value of a digit run (`parseInt(·, 10)` on captured digits). -/
def parseIntDigits (ds : List Char) : Nat :=
  ds.foldl (fun acc c => acc * 10 + (c.toNat - 48)) 0

/-- Anchored match of `^(\d{1,2})[\/\-](\d{1,2})[\/\-](\d{2,4})$`, returning
the numeric values of the three captured groups.  Since the quantified groups
are digit runs delimited by non-digit separators and anchors, the regex
matches exactly when the three maximal digit runs have the stated lengths and
are separated by `/` or `-`. -/
def slashMatch (s : String) : Option (Nat × Nat × Nat) :=
  let (g1, r1) := leadDigits s.data
  if g1.length < 1 ∨ 2 < g1.length then none else
  match r1 with
  | c1 :: r2 =>
    if c1 ≠ '/' ∧ c1 ≠ '-' then none else
    let (g2, r3) := leadDigits r2
    if g2.length < 1 ∨ 2 < g2.length then none else
    match r3 with
    | c2 :: r4 =>
      if c2 ≠ '/' ∧ c2 ≠ '-' then none else
      let (g3, r5) := leadDigits r4
      if r5 ≠ [] ∨ g3.length < 2 ∨ 4 < g3.length then none else
      some (parseIntDigits g1, parseIntDigits g2, parseIntDigits g3)
    | [] => none
  | [] => none

/-- Anchored match of `^(\d{4})-(\d{2})-(\d{2})$`. -/
def isoMatch (s : String) : Option (Nat × Nat × Nat) :=
  let (g1, r1) := leadDigits s.data
  if g1.length ≠ 4 then none else
  match r1 with
  | '-' :: r2 =>
    let (g2, r3) := leadDigits r2
    if g2.length ≠ 2 then none else
    match r3 with
    | '-' :: r4 =>
      let (g3, r5) := leadDigits r4
      if g3.length ≠ 2 ∨ r5 ≠ [] then none else
      some (parseIntDigits g1, parseIntDigits g2, parseIntDigits g3)
    | _ => none
  | _ => none

/-- Model of `new Date(string)`: the ECMAScript-specified ISO `yyyy-mm-dd`
date form parses to UTC midnight of that day; any other string is modelled as
an Invalid Date (engine-specific formats are out of scope). -/
def jsParseDateString (s : String) : Option Int :=
  (isoMatch s).map (fun g => makeDay (g.1 : Int) ((g.2.1 : Int) - 1) (g.2.2 : Int) * msPerDay)

/-- Model of `new Date(v)` for a cell value `v`: `Date` objects are copied,
numbers are millisecond timestamps, `null`/booleans coerce through `ToNumber`,
`undefined` is Invalid, strings are parsed (trimmed first, as engines do). -/
def toJSDate : JSVal → Option Int
  | .d t => t
  | .n x => some x
  | .null => some 0
  | .b true => some 1
  | .b false => some 0
  | .undef => none
  | .s str => jsParseDateString (jsTrim str)

/-- Embedding of `parseBaseDate_(optDate)` (script.js:92-142).  `now` is the
timestamp the ambient `new Date()` would observe; it is a parameter so that
dependence of the result on the current time is explicit. -/
def parseBaseDate_ (now : Int) (optDate : JSVal) : Option Int :=
  if optDate.truthy = false then some (atNoon now) else
  match optDate with
  | JSVal.d t => t.map atNoon
  | v =>
    let str := jsTrim v.toStr
    if str = "" then some (atNoon now) else
    match slashMatch str with
    | some (mo, dd, yr) =>
      let year : Int := if yr < 100 then (yr : Int) + 2000 else (yr : Int)
      some (makeDay year ((mo : Int) - 1) (dd : Int) * msPerDay + noonMs)
    | none =>
      match isoMatch str with
      | some g =>
        some (makeDay (g.1 : Int) ((g.2.1 : Int) - 1) (g.2.2 : Int) * msPerDay + noonMs)
      | none =>
        match jsParseDateString str with
        | some t => some (atNoon t)
        | none => some (atNoon now)

/-- Cell access `k[i]` on a row: out-of-range access yields `undefined`. -/
def getCell (k : List JSVal) (i : Nat) : JSVal := k.getD i JSVal.undef

/-- JS `<=` between two `Date` values: `NaN` comparisons are false. -/
def jsLe (a b : Option Int) : Bool :=
  match a, b with
  | some x, some y => x ≤ y
  | _, _ => false

/-- Loop-body condition of `getNextUpcomingRow_`:
`rowDate >= today && rowDate <= maxDate` with `rowDate = new Date(k[0])` and
`maxDate` the base date advanced by 7 calendar days. -/
def selPred (today : Option Int) (k : List JSVal) : Bool :=
  let rowDate := toJSDate (getCell k 0)
  jsLe today rowDate && jsLe rowDate (today.map (fun t => jsAddDays t 7))

/-- Embedding of `getNextUpcomingRow_(data, optBaseDate)` (script.js:144-159):
skip the header row, return the first row whose date lies in the window. -/
def getNextUpcomingRow_ (now : Int) (data : List (List JSVal)) (optBaseDate : JSVal) :
    Option (List JSVal) :=
  let today := parseBaseDate_ now optBaseDate
  (data.drop 1).find? (selPred today)

/-- Embedding of `isNoGroupRow_(k)` (script.js:169-173). -/
def isNoGroupRow_ (k : Option (List JSVal)) : Bool :=
  match k with
  | none => false
  | some row =>
    let loc := getCell row 2
    jsToLower (jsTrim (if loc.truthy then loc.toStr else "")) == "no group"

/-- Embedding of `formatRowDate_(value, pattern)` (script.js:185-189): convert
the cell value to a `Date`, force midday, format in the script timezone.  Only
the two patterns the program uses are interpreted; Apps Script behavior on an
Invalid Date is unspecified and modelled as the literal `"Invalid Date"`. -/
def formatRowDate_ (value : JSVal) (pattern : String) : String :=
  match toJSDate value with
  | none => "Invalid Date"
  | some t =>
    let tt := atNoon t
    let day := tt / msPerDay
    if pattern == "MM-dd" then
      pad2 (civilFromDays day).2.1 ++ "-" ++ pad2 (civilFromDays day).2.2
    else if pattern == "EEEE, MMMM d, yyyy" then
      weekdayLong day ++ ", " ++ monthLong (civilFromDays day).2.1 ++ " " ++
        intToString (civilFromDays day).2.2 ++ ", " ++ intToString (civilFromDays day).1
    else ""

/-- Embedding of `getShortDate_(value)` (script.js:197-199). -/
def getShortDate_ (value : JSVal) : String := formatRowDate_ value "MM-dd"

/-- Embedding of `getSignupUrl_()` (script.js:437-440); the configured sheet
id is an injected parameter. -/
def getSignupUrl_ (sheetId : String) : String :=
  "https://docs.google.com/spreadsheets/d/" ++ sheetId ++ "/edit?usp=sharing"

/-- Embedding of `buildEmailBody_(k)` (script.js:213-234). -/
def buildEmailBody_ (sheetId : String) (k : Option (List JSVal)) : String :=
  match k with
  | none => "No upcoming events found."
  | some row =>
    if isNoGroupRow_ (some row) then
      "NO GROUP for Mendez/Williams City Group on " ++ getShortDate_ (getCell row 0)
    else
      "\n  <p><strong>Date:</strong> " ++ formatRowDate_ (getCell row 0) "EEEE, MMMM d, yyyy" ++
      "</p>\n  <p><strong>Description:</strong> " ++ (getCell row 1).toStr ++
      "</p>\n  <p><strong>Location:</strong> " ++ (getCell row 2).toStr ++
      "</p>\n  <p><strong>Food Theme:</strong> " ++ (getCell row 3).toStr ++
      "</p>\n  <p><strong>Childcare Duty:</strong> " ++ (getCell row 4).toStr ++
      "</p>\n  <p><a href=\"" ++ getSignupUrl_ sheetId ++ "\">Click here to sign up</a></p>\n"

/-- Embedding of `buildEmailSubject_(k)` (script.js:246-255). -/
def buildEmailSubject_ (k : Option (List JSVal)) : String :=
  match k with
  | none => "Reminder for Mendez/Williams City Group"
  | some row =>
    if isNoGroupRow_ (some row) then
      "NO GROUP for Mendez/Williams City Group on " ++ getShortDate_ (getCell row 0)
    else
      "Reminder for Mendez/Williams City Group on " ++ getShortDate_ (getCell row 0)

/-- Embedding of `buildGroupMeMessage_(k)` (script.js:266-285). -/
def buildGroupMeMessage_ (sheetId : String) (k : Option (List JSVal)) : String :=
  match k with
  | none => "Reminder for Mendez/Williams City Group"
  | some row =>
    if isNoGroupRow_ (some row) then
      "NO GROUP for Mendez/Williams City Group on " ++ getShortDate_ (getCell row 0)
    else
      String.intercalate "\n"
        ["Reminder for Mendez/Williams City Group on " ++ getShortDate_ (getCell row 0),
         "Description: " ++ (getCell row 1).toStr,
         "Location: " ++ (getCell row 2).toStr,
         "Food Theme: " ++ (getCell row 3).toStr,
         "Childcare Duty: " ++ (getCell row 4).toStr,
         "Sign up: " ++ getSignupUrl_ sheetId]

/-- Result record of `composeReminder_` ({subject, emailBody, message, row}). -/
structure Reminder where
  subject : String
  emailBody : String
  message : String
  row : Option (List JSVal)
deriving DecidableEq

/-- Embedding of `composeReminder_(row)` (script.js:448-455). -/
def composeReminder_ (sheetId : String) (row : Option (List JSVal)) : Reminder :=
  { subject := buildEmailSubject_ row
    emailBody := buildEmailBody_ sheetId row
    message := buildGroupMeMessage_ sheetId row
    row := row }

/-- Selection plus composition as wired in `performReminderSend_`
(script.js:482-483): pick the next upcoming row of the table, then compose
all reminder artifacts from it. -/
def composeReminderFromTable (now : Int) (sheetId : String) (data : List (List JSVal))
    (optBaseDate : JSVal) : Reminder :=
  composeReminder_ sheetId (getNextUpcomingRow_ now data optBaseDate)

/-- Condition `c = '.' ∧ more follows` found anywhere in the list: the list
contains a `'.'` in a non-final position. -/
def dotNotLast : List Char → Bool
  | [] => false
  | c :: rest => (c == '.' && !rest.isEmpty) || dotNotLast rest

/-- Anchored match of `^[^\s@]+@[^\s@]+\.[^\s@]+$`: a nonempty run of
non-space/non-`@` characters, a literal `@`, then a nonempty such run that
contains a `.` preceded and followed by at least one character of the run. -/
def emailShapeMatch (cs : List Char) : Bool :=
  let before := cs.takeWhile (fun c => c != '@')
  match cs.dropWhile (fun c => c != '@') with
  | '@' :: after =>
    !before.isEmpty && before.all (fun c => !c.isWhitespace) &&
    after.all (fun c => !c.isWhitespace && c != '@') &&
    (match after with
     | [] => false
     | _ :: rest => dotNotLast rest)
  | _ => false

/-- Embedding of `isValidEmail_(email)` (script.js:342-347). -/
def isValidEmail_ (email : String) : Bool :=
  if email = "" then false
  else if 320 < email.length then false
  else emailShapeMatch email.data

/-- Normalization and partition of recipient candidates as performed by
`sendEmailToRecipients_` (script.js:369-380): stringify-and-trim each
candidate, then split into valid and invalid lists preserving order. -/
def filterValid (recipients : List String) : List String × List String :=
  (recipients.map jsTrim).partition isValidEmail_

theorem jsAddDays_eq (t n : Int) : jsAddDays t n = t + n * msPerDay := by
  unfold jsAddDays msPerDay
  omega

theorem selPred_none (k : List JSVal) : selPred none k = false := by
  simp [selPred, jsLe]

theorem selPred_some_iff (base : Int) (k : List JSVal) :
    selPred (some base) k = true ↔
    ∃ ts, toJSDate (getCell k 0) = some ts ∧ base ≤ ts ∧ ts ≤ jsAddDays base 7 := by
  cases h : toJSDate (getCell k 0) <;> simp [selPred, jsLe, h]

theorem find?_eq_some_iff_idx {α : Type} (p : α → Bool) (l : List α) (a : α) :
    l.find? p = some a ↔
    ∃ i : Nat, l[i]? = some a ∧ p a = true ∧
      ∀ (j : Nat) (b : α), j < i → l[j]? = some b → p b = false := by
  induction l with
  | nil => simp
  | cons h t ih =>
    by_cases hp : p h
    · rw [List.find?_cons_of_pos _ hp]
      constructor
      · rintro ⟨rfl⟩
        exact ⟨0, by simp, hp, fun j b hj => by omega⟩
      · rintro ⟨i, hget, hpa, hmin⟩
        match i, hget with
        | 0, hget => exact (by simpa using hget.symm : a = h) ▸ rfl
        | j + 1, hget =>
          exact absurd hp (by simpa using hmin 0 h (by omega) (by simp))
    · rw [List.find?_cons_of_neg _ hp]
      rw [ih]
      constructor
      · rintro ⟨i, hget, hpa, hmin⟩
        refine ⟨i + 1, by simpa using hget, hpa, ?_⟩
        intro j b hj hgetj
        match j, hgetj with
        | 0, hgetj =>
          have : b = h := by simpa using hgetj.symm
          simpa [this] using hp
        | j + 1, hgetj => exact hmin j b (by omega) (by simpa using hgetj)
      · rintro ⟨i, hget, hpa, hmin⟩
        match i, hget with
        | 0, hget =>
          exact absurd hpa (by simp_all)
        | i + 1, hget =>
          exact ⟨i, by simpa using hget, hpa,
            fun j b hj hgetj => hmin (j + 1) b (by omega) (by simpa using hgetj)⟩

/-- C1: for every schedule table and base date, `getNextUpcomingRow_` never
returns a row whose date falls before the base date or after the base date
plus 7 days; the window bound is computed by calendar-day arithmetic
(`setDate(getDate() + 7)`, i.e. exactly 7 days keeping the time of day), and
both endpoints are inclusive (a row dated exactly at the base date or exactly
7 days later is selected; one millisecond outside either endpoint is not). -/
theorem c1_window_safety :
    (∀ (now : Int) (data : List (List JSVal)) (opt : JSVal) (k : List JSVal),
      getNextUpcomingRow_ now data opt = some k →
      ∃ base ts, parseBaseDate_ now opt = some base ∧
        toJSDate (getCell k 0) = some ts ∧
        base ≤ ts ∧ ts ≤ base + 7 * msPerDay) ∧
    (∀ t : Int, jsAddDays t 7 = t + 7 * msPerDay) ∧
    getNextUpcomingRow_ 0 [[], [JSVal.n noonMs]] JSVal.undef = some [JSVal.n noonMs] ∧
    getNextUpcomingRow_ 0 [[], [JSVal.n (noonMs + 7 * msPerDay)]] JSVal.undef =
      some [JSVal.n (noonMs + 7 * msPerDay)] ∧
    getNextUpcomingRow_ 0 [[], [JSVal.n (noonMs + 7 * msPerDay + 1)]] JSVal.undef = none ∧
    getNextUpcomingRow_ 0 [[], [JSVal.n (noonMs - 1)]] JSVal.undef = none := by
  refine ⟨?_, fun t => jsAddDays_eq t 7, by decide, by decide, by decide, by decide⟩
  intro now data opt k h
  unfold getNextUpcomingRow_ at h
  have hp := List.find?_some h
  cases hbase : parseBaseDate_ now opt with
  | none => rw [hbase] at hp; rw [selPred_none] at hp; exact absurd hp (by simp)
  | some base =>
    rw [hbase] at hp
    obtain ⟨ts, hts, h1, h2⟩ := (selPred_some_iff base k).mp hp
    exact ⟨base, ts, rfl, hts, h1, by rwa [jsAddDays_eq] at h2⟩

/-- Witness for C1 at a concrete input: the row dated exactly at the base
date is returned and satisfies the window inequalities. -/
theorem c1_window_safety_witness :
    ∃ base ts, parseBaseDate_ 0 JSVal.undef = some base ∧
      toJSDate (getCell [JSVal.n noonMs] 0) = some ts ∧
      base ≤ ts ∧ ts ≤ base + 7 * msPerDay :=
  c1_window_safety.1 0 [[], [JSVal.n noonMs]] JSVal.undef [JSVal.n noonMs]
    c1_window_safety.2.2.1

/-- C2: `getNextUpcomingRow_` returns `some k` exactly when some index `i ≥ 1`
(the header at index 0 is never scanned) holds `k`, `k`'s date lies in the
window, and no data row strictly before index `i` does; so selection is by
table order, not date order, even when a later row holds an earlier
equally-in-window date. -/
theorem c2_first_in_table_order (now : Int) (data : List (List JSVal)) (opt : JSVal)
    (k : List JSVal) :
    getNextUpcomingRow_ now data opt = some k ↔
    ∃ i : Nat, 1 ≤ i ∧ data[i]? = some k ∧
      selPred (parseBaseDate_ now opt) k = true ∧
      ∀ (j : Nat) (kj : List JSVal), 1 ≤ j → j < i → data[j]? = some kj →
        selPred (parseBaseDate_ now opt) kj = false := by
  unfold getNextUpcomingRow_
  rw [find?_eq_some_iff_idx]
  constructor
  · rintro ⟨i, hget, hpa, hmin⟩
    rw [List.getElem?_drop] at hget
    refine ⟨1 + i, by omega, hget, hpa, ?_⟩
    intro j kj h1 hj hgetj
    refine hmin (j - 1) kj (by omega) ?_
    rw [List.getElem?_drop]
    have : 1 + (j - 1) = j := by omega
    rwa [this]
  · rintro ⟨i, h1, hget, hpa, hmin⟩
    refine ⟨i - 1, ?_, hpa, ?_⟩
    · rw [List.getElem?_drop]
      have : 1 + (i - 1) = i := by omega
      rwa [this]
    · intro j b hj hgetj
      rw [List.getElem?_drop] at hgetj
      exact hmin (1 + j) b (by omega) (by omega) hgetj

/-- Witness for C2: the table-order scenario of the spec — rows dated
base+10d ("far", out of window), base+2d ("soon", in window), base+1d
("sooner-but-later-in-list", in window but positioned later) — selects
"soon", the first in-window row in table order, not the earliest date. -/
theorem c2_first_in_table_order_witness :
    getNextUpcomingRow_ 0
      [[JSVal.s "Date", JSVal.s "Description"],
       [JSVal.n (10 * msPerDay + noonMs), JSVal.s "far"],
       [JSVal.n (2 * msPerDay + noonMs), JSVal.s "soon"],
       [JSVal.n (msPerDay + noonMs), JSVal.s "sooner-but-later-in-list"]]
      JSVal.undef = some [JSVal.n (2 * msPerDay + noonMs), JSVal.s "soon"] := by
  rw [c2_first_in_table_order]
  refine ⟨2, by omega, by decide, by decide, ?_⟩
  intro j kj h1 hj hget
  have : j = 1 := by omega
  subst this
  have : kj = [JSVal.n (10 * msPerDay + noonMs), JSVal.s "far"] := by
    simpa using hget.symm
  subst this
  decide

/-- C5: a row whose date cell is unconvertible to a date never matches the
window condition (so it is skipped without aborting the scan — the function
is total), `getNextUpcomingRow_` returns `none` exactly when no data row
matches, and concretely a table whose first data row is malformed still
yields the later well-dated row. -/
theorem c5_malformed_rows_skipped :
    (∀ (today : Option Int) (k : List JSVal),
      toJSDate (getCell k 0) = none → selPred today k = false) ∧
    (∀ (now : Int) (data : List (List JSVal)) (opt : JSVal),
      getNextUpcomingRow_ now data opt = none ↔
      ∀ k ∈ data.drop 1, selPred (parseBaseDate_ now opt) k = false) ∧
    getNextUpcomingRow_ 0 [[], [JSVal.s "not a date"], [JSVal.n noonMs]] JSVal.undef =
      some [JSVal.n noonMs] := by
  refine ⟨?_, ?_, by decide⟩
  · intro today k h
    cases today <;> simp [selPred, h, jsLe]
  · intro now data opt
    unfold getNextUpcomingRow_
    rw [List.find?_eq_none]
    simp

/-- Witness for C5: the malformed row `["not a date"]` does not match any
window, here the one based at timestamp 0. -/
theorem c5_malformed_rows_skipped_witness :
    selPred (some 0) [JSVal.s "not a date"] = false :=
  c5_malformed_rows_skipped.1 (some 0) [JSVal.s "not a date"] (by decide)

theorem daysFromCivil_day_linear (y m d : Int) :
    daysFromCivil y m d = daysFromCivil y m 1 + (d - 1) := by
  unfold daysFromCivil
  dsimp only
  split_ifs <;> omega

theorem makeDay_eq_daysFromCivil (y mo d : Int) (h1 : 1 ≤ mo) (h2 : mo ≤ 12) :
    makeDay y (mo - 1) d = daysFromCivil y mo d := by
  unfold makeDay
  dsimp only
  rw [show y + (mo - 1) / 12 = y by omega, show (mo - 1) % 12 + 1 = mo by omega]

/-- C3 (amended): for every input string whose trimmed form matches
`^(\d{1,2})[\/\-](\d{1,2})[\/\-](\d{2,4})$` with month group in 1..12,
`parseBaseDate_` returns noon (a fixed hour that is not strict midnight,
`noonMs = 43200000 ≠ 0`) of the day number of the calendar date whose month
is the first group (1-based), day the second group, and year the third group
with values below 100 read as 2000 + year.  Out-of-range month or day values
are normalized by calendar arithmetic rather than kept verbatim (see the
counterexample). -/
theorem c3_slash_parse (now : Int) (s : String) (mo dd yr : Nat)
    (hm : slashMatch (jsTrim s) = some (mo, dd, yr))
    (hmo1 : 1 ≤ mo) (hmo2 : mo ≤ 12) :
    parseBaseDate_ now (JSVal.s s) =
      some (daysFromCivil (if yr < 100 then (yr : Int) + 2000 else (yr : Int))
        (mo : Int) (dd : Int) * msPerDay + noonMs) := by
  have hts : jsTrim s ≠ "" := by
    intro h
    rw [h, show slashMatch "" = none from by decide] at hm
    simp at hm
  have hs : s ≠ "" := by
    rintro rfl
    exact hts (by decide)
  have htr : JSVal.truthy (JSVal.s s) = true := by simp [JSVal.truthy, hs]
  unfold parseBaseDate_
  rw [htr]
  dsimp only [JSVal.toStr]
  rw [if_neg (by simp), if_neg hts, hm]
  dsimp only
  rw [makeDay_eq_daysFromCivil _ (mo : Int) _ (by exact_mod_cast hmo1) (by exact_mod_cast hmo2)]

/-- C3 counterexample: the string `"13/1/25"` matches the slash/dash pattern
with first group 13, but the code normalizes `new Date(2025, 12, 1)` to
January 1, 2026 — the result is not a calendar day whose month is the first
captured group. -/
theorem c3_counterexample :
    (parseBaseDate_ 0 (JSVal.s "13/1/25")).map (fun t => civilFromDays (t / msPerDay)) =
      some (2026, 1, 1) ∧
    (parseBaseDate_ 0 (JSVal.s "13/1/25")).map (fun t => civilFromDays (t / msPerDay)) ≠
      some (2025, 13, 1) := by decide

/-- Witness for C3 (amended) at `"12/17/25"`: month 12, day 17, two-digit
year 25 read as 2025, pinned to noon of that day. -/
theorem c3_slash_parse_witness :
    parseBaseDate_ 0 (JSVal.s "12/17/25") =
      some (daysFromCivil 2025 12 17 * msPerDay + noonMs) := by
  have h := c3_slash_parse 0 "12/17/25" 12 17 25 (by decide) (by decide) (by decide)
  simpa using h

theorem atNoon_mod (t : Int) : atNoon t % msPerDay = noonMs := by
  unfold atNoon msPerDay noonMs
  omega

/-- C4 counterexample: an Invalid Date (`new Date(NaN)`) is a native `Date`
value and is truthy, so it reaches the `instanceof Date` branch, whose
copy-and-`setHours` preserves the `NaN` time value — the result is an
Invalid Date, not a usable normalized day. -/
theorem c4_counterexample : parseBaseDate_ 0 (JSVal.d none) = none := rfl

/-- C4 (amended): for an absent/undefined input, a valid native `Date`
value, and any string whatsoever, `parseBaseDate_` returns a valid day
normalized to the pinned hour (noon); a string matching neither the
slash/dash nor the ISO pattern is given the generic date parse, whose result
is used when valid and otherwise replaced by the current moment.  An invalid
native `Date` input is the one exception: its invalidity propagates (see the
counterexample). -/
theorem c4_total_normalized :
    (∀ now : Int, ∃ t, parseBaseDate_ now JSVal.undef = some t ∧ t % msPerDay = noonMs) ∧
    (∀ now tv : Int, ∃ t, parseBaseDate_ now (JSVal.d (some tv)) = some t ∧
      t % msPerDay = noonMs) ∧
    (∀ (now : Int) (str : String), ∃ t, parseBaseDate_ now (JSVal.s str) = some t ∧
      t % msPerDay = noonMs) ∧
    (∀ (now : Int) (str : String) (t : Int), jsTrim str ≠ "" →
      slashMatch (jsTrim str) = none → isoMatch (jsTrim str) = none →
      jsParseDateString (jsTrim str) = some t →
      parseBaseDate_ now (JSVal.s str) = some (atNoon t)) ∧
    (∀ (now : Int) (str : String), jsTrim str ≠ "" →
      slashMatch (jsTrim str) = none → isoMatch (jsTrim str) = none →
      jsParseDateString (jsTrim str) = none →
      parseBaseDate_ now (JSVal.s str) = some (atNoon now)) := by
  have hstr : ∀ (now : Int) (str : String), str ≠ "" →
      parseBaseDate_ now (JSVal.s str) =
        (if jsTrim str = "" then some (atNoon now) else
         match slashMatch (jsTrim str) with
         | some (mo, dd, yr) =>
           some (makeDay (if yr < 100 then (yr : Int) + 2000 else (yr : Int))
             ((mo : Int) - 1) (dd : Int) * msPerDay + noonMs)
         | none =>
           match isoMatch (jsTrim str) with
           | some g =>
             some (makeDay (g.1 : Int) ((g.2.1 : Int) - 1) (g.2.2 : Int) * msPerDay + noonMs)
           | none =>
             match jsParseDateString (jsTrim str) with
             | some t => some (atNoon t)
             | none => some (atNoon now)) := by
    intro now str h0
    have htr : JSVal.truthy (JSVal.s str) = true := by simp [JSVal.truthy, h0]
    unfold parseBaseDate_
    rw [htr]
    rw [if_neg (by simp)]
    dsimp only [JSVal.toStr]
  refine ⟨fun now => ⟨atNoon now, rfl, atNoon_mod now⟩,
    fun now tv => ⟨atNoon tv, rfl, atNoon_mod tv⟩, ?_, ?_, ?_⟩
  · intro now str
    by_cases h0 : str = ""
    · exact h0 ▸ ⟨atNoon now, rfl, atNoon_mod now⟩
    rw [hstr now str h0]
    by_cases h1 : jsTrim str = ""
    · rw [if_pos h1]
      exact ⟨atNoon now, rfl, atNoon_mod now⟩
    rw [if_neg h1]
    rcases h2 : slashMatch (jsTrim str) with _ | ⟨mo, dd, yr⟩
    · rcases h3 : isoMatch (jsTrim str) with _ | g
      · rcases h4 : jsParseDateString (jsTrim str) with _ | t
        · exact ⟨atNoon now, rfl, atNoon_mod now⟩
        · exact ⟨atNoon t, rfl, atNoon_mod t⟩
      · refine ⟨_, rfl, ?_⟩
        generalize makeDay (g.1 : Int) ((g.2.1 : Int) - 1) (g.2.2 : Int) = k
        unfold msPerDay noonMs
        omega
    · refine ⟨_, rfl, ?_⟩
      generalize makeDay (if yr < 100 then (yr : Int) + 2000 else (yr : Int))
        ((mo : Int) - 1) (dd : Int) = k
      unfold msPerDay noonMs
      omega
  · intro now str t h1 h2 h3 h4
    rw [hstr now str (fun h => h1 (by rw [h]; rfl)), if_neg h1, h2, h3, h4]
  · intro now str h1 h2 h3 h4
    rw [hstr now str (fun h => h1 (by rw [h]; rfl)), if_neg h1, h2, h3, h4]

/-- Witness for C4 (amended): the unparseable string `"pizza"` yields the
noon-pinned current moment. -/
theorem c4_total_normalized_witness :
    parseBaseDate_ 0 (JSVal.s "pizza") = some (atNoon 0) :=
  c4_total_normalized.2.2.2.2 0 "pizza" (by decide) (by decide) (by decide) (by decide)

theorem parseBaseDate_string (now : Int) (str : String) (h0 : str ≠ "") :
    parseBaseDate_ now (JSVal.s str) =
      (if jsTrim str = "" then some (atNoon now) else
       match slashMatch (jsTrim str) with
       | some (mo, dd, yr) =>
         some (makeDay (if yr < 100 then (yr : Int) + 2000 else (yr : Int))
           ((mo : Int) - 1) (dd : Int) * msPerDay + noonMs)
       | none =>
         match isoMatch (jsTrim str) with
         | some g =>
           some (makeDay (g.1 : Int) ((g.2.1 : Int) - 1) (g.2.2 : Int) * msPerDay + noonMs)
         | none =>
           match jsParseDateString (jsTrim str) with
           | some t => some (atNoon t)
           | none => some (atNoon now)) := by
  have htr : JSVal.truthy (JSVal.s str) = true := by simp [JSVal.truthy, h0]
  unfold parseBaseDate_
  rw [htr]
  rw [if_neg (by simp)]
  dsimp only [JSVal.toStr]

/-- Criterion, read off the structure of `parseBaseDate_`, for inputs whose
resolution never consults the ambient current time: native `Date` values, and
nonempty strings accepted by the slash/dash pattern, the ISO pattern, or the
generic date parse.  Absent input, empty/blank strings, other falsy or
non-string values, and strings that fail every parse all fall through to a
branch that reads `new Date()`. -/
def baseDateDeterministic : JSVal → Bool
  | .d _ => true
  | .s str => (str != "") &&
      ((slashMatch (jsTrim str)).isSome || (isoMatch (jsTrim str)).isSome ||
       (jsParseDateString (jsTrim str)).isSome)
  | _ => false

/-- C9 (amended): the current time is read not only in the no-input branch
but also in the generic-parse-failure fallback; for every input satisfying
`baseDateDeterministic` — a native `Date` or a string one of the three parses
accepts — two evaluations of `parseBaseDate_`, and hence of
`getNextUpcomingRow_` on the same table, at different current times agree. -/
theorem c9_determinism (n1 n2 : Int) (v : JSVal)
    (h : baseDateDeterministic v = true) :
    parseBaseDate_ n1 v = parseBaseDate_ n2 v ∧
    ∀ data : List (List JSVal),
      getNextUpcomingRow_ n1 data v = getNextUpcomingRow_ n2 data v := by
  have hbase : parseBaseDate_ n1 v = parseBaseDate_ n2 v := by
    match v with
    | JSVal.undef => exact absurd h (by decide)
    | JSVal.null => exact absurd h (by decide)
    | JSVal.b x => rw [show baseDateDeterministic (JSVal.b x) = false from rfl] at h; simp at h
    | JSVal.n x => rw [show baseDateDeterministic (JSVal.n x) = false from rfl] at h; simp at h
    | JSVal.d t => rfl
    | JSVal.s str =>
      have hss : (str != "") = true ∧
          ((slashMatch (jsTrim str)).isSome || (isoMatch (jsTrim str)).isSome ||
           (jsParseDateString (jsTrim str)).isSome) = true := by
        simpa [baseDateDeterministic, Bool.and_eq_true] using h
      have h0 : str ≠ "" := by simpa using hss.1
      rw [parseBaseDate_string n1 str h0, parseBaseDate_string n2 str h0]
      by_cases h1 : jsTrim str = ""
      · exfalso
        rw [h1] at hss
        exact absurd hss.2 (by decide)
      rw [if_neg h1, if_neg h1]
      rcases h2 : slashMatch (jsTrim str) with _ | ⟨mo, dd, yr⟩
      · rcases h3 : isoMatch (jsTrim str) with _ | g
        · rcases h4 : jsParseDateString (jsTrim str) with _ | t
          · exfalso
            rw [h2, h3, h4] at hss
            exact absurd hss.2 (by decide)
          · rfl
        · rfl
      · rfl
  refine ⟨hbase, fun data => ?_⟩
  unfold getNextUpcomingRow_
  rw [hbase]

/-- C9 counterexample: the explicitly supplied (truthy, non-`Date`) input
`"pizza"` fails every parse, so the fallback reads the current time: two
evaluations at current times 0 and 7 days later return different base days,
and `getNextUpcomingRow_` on the same table then picks different rows. -/
theorem c9_counterexample :
    parseBaseDate_ 0 (JSVal.s "pizza") ≠ parseBaseDate_ (7 * msPerDay) (JSVal.s "pizza") ∧
    getNextUpcomingRow_ 0 [[], [JSVal.n noonMs]] (JSVal.s "pizza") ≠
      getNextUpcomingRow_ (7 * msPerDay) [[], [JSVal.n noonMs]] (JSVal.s "pizza") := by
  decide

/-- Witness for C9 (amended): a slash/dash date string resolves identically
under two very different current times. -/
theorem c9_determinism_witness :
    parseBaseDate_ 0 (JSVal.s "12/17/25") =
      parseBaseDate_ 999999999 (JSVal.s "12/17/25") :=
  (c9_determinism 0 999999999 (JSVal.s "12/17/25") (by decide)).1

/-- C6: on every row classified no-group, the email subject, the email body
and the GroupMe message are the identical single-line literal
`"NO GROUP for Mendez/Williams City Group on "` followed by the row's short
`MM-dd` date — body and chat message collapse to exactly the subject text. -/
theorem c6_no_group_consistency (sheetId : String) (k : List JSVal)
    (h : isNoGroupRow_ (some k) = true) :
    buildEmailSubject_ (some k) =
      "NO GROUP for Mendez/Williams City Group on " ++ getShortDate_ (getCell k 0) ∧
    buildEmailBody_ sheetId (some k) = buildEmailSubject_ (some k) ∧
    buildGroupMeMessage_ sheetId (some k) = buildEmailSubject_ (some k) := by
  simp [buildEmailSubject_, buildEmailBody_, buildGroupMeMessage_, h]

/-- Witness for C6 at the spec's scenario row
`(2025-12-17, "Desc", "No Group", "Food", "Duty")`: classified no-group, all
three texts coincide, and the subject is the expected literal with short date
`12-17`. -/
theorem c6_no_group_consistency_witness :
    isNoGroupRow_ (some [JSVal.s "2025-12-17", JSVal.s "Desc", JSVal.s "No Group",
      JSVal.s "Food", JSVal.s "Duty"]) = true ∧
    (buildEmailSubject_ (some [JSVal.s "2025-12-17", JSVal.s "Desc", JSVal.s "No Group",
        JSVal.s "Food", JSVal.s "Duty"]) =
      "NO GROUP for Mendez/Williams City Group on " ++
        getShortDate_ (getCell [JSVal.s "2025-12-17", JSVal.s "Desc", JSVal.s "No Group",
          JSVal.s "Food", JSVal.s "Duty"] 0) ∧
     buildEmailBody_ "SHEETID" (some [JSVal.s "2025-12-17", JSVal.s "Desc", JSVal.s "No Group",
        JSVal.s "Food", JSVal.s "Duty"]) =
      buildEmailSubject_ (some [JSVal.s "2025-12-17", JSVal.s "Desc", JSVal.s "No Group",
        JSVal.s "Food", JSVal.s "Duty"]) ∧
     buildGroupMeMessage_ "SHEETID" (some [JSVal.s "2025-12-17", JSVal.s "Desc",
        JSVal.s "No Group", JSVal.s "Food", JSVal.s "Duty"]) =
      buildEmailSubject_ (some [JSVal.s "2025-12-17", JSVal.s "Desc", JSVal.s "No Group",
        JSVal.s "Food", JSVal.s "Duty"])) ∧
    buildEmailSubject_ (some [JSVal.s "2025-12-17", JSVal.s "Desc", JSVal.s "No Group",
      JSVal.s "Food", JSVal.s "Duty"]) =
      "NO GROUP for Mendez/Williams City Group on 12-17" :=
  ⟨by decide,
   c6_no_group_consistency "SHEETID"
     [JSVal.s "2025-12-17", JSVal.s "Desc", JSVal.s "No Group", JSVal.s "Food",
      JSVal.s "Duty"] (by decide),
   by decide⟩

/-- C7: composing a reminder from a table and an optional base date (the
wiring of `performReminderSend_`) yields exactly the three builders applied
to the selected row, and on a table with no matching row it yields the
sentinel contents of the none branches. -/
theorem c7_compose_reminder (now : Int) (sheetId : String) (data : List (List JSVal))
    (opt : JSVal) :
    ((composeReminderFromTable now sheetId data opt).subject =
       buildEmailSubject_ (getNextUpcomingRow_ now data opt) ∧
     (composeReminderFromTable now sheetId data opt).emailBody =
       buildEmailBody_ sheetId (getNextUpcomingRow_ now data opt) ∧
     (composeReminderFromTable now sheetId data opt).message =
       buildGroupMeMessage_ sheetId (getNextUpcomingRow_ now data opt) ∧
     (composeReminderFromTable now sheetId data opt).row =
       getNextUpcomingRow_ now data opt) ∧
    (getNextUpcomingRow_ now data opt = none →
      composeReminderFromTable now sheetId data opt =
        ⟨"Reminder for Mendez/Williams City Group", "No upcoming events found.",
         "Reminder for Mendez/Williams City Group", none⟩) := by
  refine ⟨⟨rfl, rfl, rfl, rfl⟩, fun h => ?_⟩
  unfold composeReminderFromTable
  rw [h]
  rfl

/-- Witness for C7: on an empty table no row matches, and the composed
reminder carries the three none-branch sentinel texts. -/
theorem c7_compose_reminder_witness :
    composeReminderFromTable 0 "SHEETID" [] JSVal.undef =
      ⟨"Reminder for Mendez/Williams City Group", "No upcoming events found.",
       "Reminder for Mendez/Williams City Group", none⟩ :=
  (c7_compose_reminder 0 "SHEETID" [] JSVal.undef).2 rfl

theorem dotNotLast_iff (l : List Char) :
    dotNotLast l = true ↔ ∃ x y : List Char, y ≠ [] ∧ l = x ++ '.' :: y := by
  induction l with
  | nil =>
    constructor
    · intro h
      exact absurd h (by decide)
    · rintro ⟨x, y, hy, h⟩
      exact absurd h.symm (by simp)
  | cons c rest ih =>
    constructor
    · intro h
      rw [show dotNotLast (c :: rest) = ((c == '.' && !rest.isEmpty) || dotNotLast rest)
        from rfl] at h
      rcases Bool.or_eq_true_iff.mp h with h1 | h1
      · rcases Bool.and_eq_true_iff.mp h1 with ⟨hc, hr⟩
        refine ⟨[], rest, by simpa using hr, ?_⟩
        rw [show c = '.' from by simpa using hc]
        rfl
      · obtain ⟨x, y, hy, rfl⟩ := ih.mp h1
        exact ⟨c :: x, y, hy, rfl⟩
    · rintro ⟨x, y, hy, heq⟩
      rw [show dotNotLast (c :: rest) = ((c == '.' && !rest.isEmpty) || dotNotLast rest)
        from rfl]
      cases x with
      | nil =>
        obtain ⟨rfl, rfl⟩ : c = '.' ∧ rest = y := by simpa using heq
        apply Bool.or_eq_true_iff.mpr
        left
        simp [hy]
      | cons x0 xs =>
        obtain ⟨rfl, rfl⟩ : c = x0 ∧ rest = xs ++ '.' :: y := by simpa using heq
        apply Bool.or_eq_true_iff.mpr
        right
        exact ih.mpr ⟨xs, y, hy, rfl⟩

theorem takeWhile_middle (p : Char → Bool) (a t : List Char) (x : Char)
    (ha : ∀ c ∈ a, p c = true) (hx : p x = false) :
    (a ++ x :: t).takeWhile p = a ∧ (a ++ x :: t).dropWhile p = x :: t := by
  induction a with
  | nil => simp [List.takeWhile_cons, List.dropWhile_cons, hx]
  | cons c cs ih =>
    have hc : p c = true := ha c (by simp)
    have ih2 := ih (fun u hu => ha u (by simp [hu]))
    simp only [List.cons_append, List.takeWhile_cons, List.dropWhile_cons, hc, if_true]
    simp [ih2.1, ih2.2]

theorem dropWhile_head_false (p : Char → Bool) (l : List Char) (c : Char) (t : List Char)
    (h : l.dropWhile p = c :: t) : p c = false := by
  induction l with
  | nil => simp at h
  | cons a l ih =>
    rw [List.dropWhile_cons] at h
    by_cases hp : p a = true
    · rw [if_pos hp] at h
      exact ih h
    · rw [if_neg hp] at h
      obtain ⟨rfl, rfl⟩ : a = c ∧ l = t := by simpa using h
      simpa using hp

/-- Modelled from the spec: a `local@domain.tld`-shaped candidate in the
spec's words — one-or-more non-space/non-`@` characters, a literal `@`,
one-or-more non-space/non-`@` characters, a literal `.`, one-or-more
non-space/non-`@` characters.  Stated independently of the implementation's
matcher for the refinement comparison. -/
def emailShapeSpec (e : String) : Prop :=
  ∃ a b c : List Char, a ≠ [] ∧ b ≠ [] ∧ c ≠ [] ∧
    (∀ ch ∈ a ++ b ++ c, ch.isWhitespace = false ∧ ch ≠ '@') ∧
    e.data = a ++ '@' :: (b ++ '.' :: c)

theorem emailShapeMatch_iff (cs : List Char) :
    emailShapeMatch cs = true ↔
    ∃ a b c : List Char, a ≠ [] ∧ b ≠ [] ∧ c ≠ [] ∧
      (∀ ch ∈ a ++ b ++ c, ch.isWhitespace = false ∧ ch ≠ '@') ∧
      cs = a ++ '@' :: (b ++ '.' :: c) := by
  constructor
  · intro h
    unfold emailShapeMatch at h
    rcases hdrop : cs.dropWhile (fun c => c != '@') with _ | ⟨c0, after⟩
    · rw [hdrop] at h
      simp at h
    · have hc0 : (c0 != '@') = false := dropWhile_head_false _ cs c0 after hdrop
      have hc0' : c0 = '@' := by simpa using hc0
      subst hc0'
      rw [hdrop] at h
      simp only [Bool.and_eq_true] at h
      obtain ⟨⟨⟨hne, hbmem⟩, hamem⟩, hdot⟩ := h
      rcases hafter : after with _ | ⟨a0, rest⟩
      · rw [hafter] at hdot
        simp at hdot
      · rw [hafter] at hdot
        obtain ⟨x, y, hy, rfl⟩ := (dotNotLast_iff rest).mp hdot
        subst hafter
        refine ⟨cs.takeWhile (fun c => c != '@'), a0 :: x, y, by simpa using hne,
          by simp, hy, ?_, ?_⟩
        · intro ch hch
          rw [List.append_assoc, List.mem_append] at hch
          rcases hch with hch | hch
          · have h1 : (ch != '@') = true :=
              List.mem_takeWhile_imp (p := fun c => c != '@') hch
            have h2 := List.all_eq_true.mp hbmem ch hch
            exact ⟨by simpa using h2, by simpa using h1⟩
          · have hm : ch ∈ '@' :: (a0 :: (x ++ '.' :: y)) → ch ∈ ('@' :: a0 :: x) ∨
                ch ∈ y ∨ ch = '.' := by
              intro hmm
              simp at hmm ⊢
              tauto
            have hin : ch ∈ a0 :: (x ++ '.' :: y) := by
              rcases List.mem_append.mp hch with hch1 | hch1
              · simp at hch1 ⊢
                tauto
              · simp at hch1 ⊢
                tauto
            have h3 := List.all_eq_true.mp hamem ch hin
            simp only [Bool.and_eq_true] at h3
            exact ⟨by simpa using h3.1, by simpa using h3.2⟩
        · conv_lhs => rw [← List.takeWhile_append_dropWhile (p := fun c => c != '@') (l := cs)]
          rw [hdrop]
          simp
  · rintro ⟨a, b, c, ha, hb, hc, hok, rfl⟩
    have hmid := takeWhile_middle (fun c => c != '@') a (b ++ '.' :: c) '@'
      (fun u hu => by simpa using (hok u (by simp [hu])).2) (by decide)
    unfold emailShapeMatch
    rw [hmid.2]
    simp only [Bool.and_eq_true]
    refine ⟨⟨⟨?_, ?_⟩, ?_⟩, ?_⟩
    · rw [hmid.1]
      simpa using ha
    · rw [hmid.1]
      apply List.all_eq_true.mpr
      intro u hu
      simpa using (hok u (by simp [hu])).1
    · apply List.all_eq_true.mpr
      intro u hu
      rcases List.mem_append.mp hu with hu1 | hu1
      · have := hok u (by simp [hu1])
        simp [this.1, this.2]
      · rcases List.mem_cons.mp hu1 with rfl | hu2
        · decide
        · have := hok u (by simp [hu2])
          simp [this.1, this.2]
    · rcases hbb : b with _ | ⟨b0, bs⟩
      · exact absurd hbb hb
      · subst hbb
        simp only [List.cons_append]
        exact (dotNotLast_iff (bs ++ '.' :: c)).mpr ⟨bs, c, hc, rfl⟩

/-- C8: candidates are stringified and trimmed, validity is length at most
320 together with the `local@domain.tld` shape of the spec (shown as an
equivalence with the independent spec-side predicate), and the list is
partitioned into valid and invalid sublists preserving input order; the
spec's example list partitions as stated. -/
theorem c8_recipient_validation :
    filterValid ["a@example.com", "not-an-email", "b@test.org"] =
      (["a@example.com", "b@test.org"], ["not-an-email"]) ∧
    (∀ e : String, isValidEmail_ e = true ↔ (e.length ≤ 320 ∧ emailShapeSpec e)) ∧
    (∀ cs : List String, filterValid cs =
      ((cs.map jsTrim).filter (fun e => isValidEmail_ e),
       (cs.map jsTrim).filter (fun e => !isValidEmail_ e))) := by
  refine ⟨by decide, ?_, ?_⟩
  · intro e
    unfold isValidEmail_
    by_cases h0 : e = ""
    · subst h0
      rw [if_pos rfl]
      constructor
      · intro h
        simp at h
      · rintro ⟨-, a, b, c, ha, hb, hc, hok, habs⟩
        exact absurd habs.symm (by simp)
    rw [if_neg h0]
    by_cases h1 : 320 < e.length
    · rw [if_pos h1]
      constructor
      · intro h
        simp at h
      · rintro ⟨hlen, -⟩
        omega
    rw [if_neg h1]
    rw [emailShapeMatch_iff]
    unfold emailShapeSpec
    constructor
    · intro h
      exact ⟨by omega, h⟩
    · rintro ⟨-, h⟩
      exact h
  · intro cs
    unfold filterValid
    rw [List.partition_eq_filter_filter]
    rfl

/-- Witness for C8: the validity criterion instantiated at the example
address `a@example.com`. -/
theorem c8_recipient_validation_witness :
    isValidEmail_ "a@example.com" = true ↔
      (("a@example.com" : String).length ≤ 320 ∧ emailShapeSpec "a@example.com") :=
  c8_recipient_validation.2.1 "a@example.com"

/-- Digit characters and the minus sign: the character class of decimal
integer renderings. -/
def digitDash : List Char := ['-', '0', '1', '2', '3', '4', '5', '6', '7', '8', '9']

theorem digitChar_mem (d : Nat) : digitChar d ∈ digitDash := by
  rcases d with _ | _ | _ | _ | _ | _ | _ | _ | _ | d
  case _ => decide
  case _ => decide
  case _ => decide
  case _ => decide
  case _ => decide
  case _ => decide
  case _ => decide
  case _ => decide
  case _ => decide
  case _ =>
    change '9' ∈ digitDash
    decide

theorem natToCharsAux_subset (f : Nat) : ∀ (n : Nat), ∀ c ∈ natToCharsAux f n, c ∈ digitDash := by
  induction f with
  | zero =>
    intro n c hc
    simp [natToCharsAux] at hc
  | succ f ih =>
    intro n c hc
    rw [natToCharsAux] at hc
    by_cases hn : n < 10
    · rw [if_pos hn] at hc
      obtain rfl : c = digitChar n := by simpa using hc
      exact digitChar_mem n
    · rw [if_neg hn] at hc
      rcases List.mem_append.mp hc with hc1 | hc1
      · exact ih (n / 10) c hc1
      · obtain rfl : c = digitChar (n % 10) := by simpa using hc1
        exact digitChar_mem _
theorem intToString_subset (x : Int) : ∀ c ∈ (intToString x).data, c ∈ digitDash := by
  intro c hc
  unfold intToString at hc
  split_ifs at hc
  · rw [String.data_append] at hc
    rcases List.mem_append.mp hc with hc1 | hc1
    · obtain rfl : c = '-' := by simpa using hc1
      decide
    · exact natToCharsAux_subset _ _ c hc1
  · exact natToCharsAux_subset _ _ c hc

theorem mem_of_mem_trimChars (l : List Char) (c : Char) (h : c ∈ trimChars l) : c ∈ l := by
  unfold trimChars at h
  rw [List.mem_reverse] at h
  have h2 := List.dropWhile_subset isWS h
  rw [List.mem_reverse] at h2
  exact List.dropWhile_subset isWS h2

theorem mem_trimChars_of_mem (l : List Char) (c : Char) (hw : isWS c = false)
    (h : c ∈ l) : c ∈ trimChars l := by
  have stay : ∀ m : List Char, c ∈ m → c ∈ m.dropWhile isWS := by
    intro m hm
    induction m with
    | nil => simp at hm
    | cons a t ih =>
      rw [List.dropWhile_cons]
      by_cases ha : isWS a = true
      · rw [if_pos ha]
        rcases List.mem_cons.mp hm with rfl | hm2
        · rw [hw] at ha
          cases ha
        · exact ih hm2
      · rw [if_neg ha]
        exact hm
  unfold trimChars
  rw [List.mem_reverse]
  apply stay
  rw [List.mem_reverse]
  exact stay l h

theorem normalized_ne_noGroup_of_digitDash (s : String)
    (h : ∀ c ∈ s.data, c ∈ digitDash) :
    (jsToLower (jsTrim s) == "no group") = false := by
  apply beq_eq_false_iff_ne.mpr
  intro heq
  have hdata : (trimChars s.data).map Char.toLower = ("no group" : String).data := by
    have : (jsToLower (jsTrim s)).data = ("no group" : String).data := by rw [heq]
    simpa [jsToLower, jsTrim] using this
  have hsp : ' ' ∈ (trimChars s.data).map Char.toLower := by
    rw [hdata]
    decide
  obtain ⟨c, hc, hlow⟩ := List.mem_map.mp hsp
  have hcl : c ∈ digitDash := h c (mem_of_mem_trimChars _ c hc)
  have hall : ∀ u ∈ digitDash, Char.toLower u ≠ ' ' := by decide
  exact hall c hcl hlow

theorem normalized_ne_noGroup_of_colon (s : String) (h : ':' ∈ s.data) :
    (jsToLower (jsTrim s) == "no group") = false := by
  apply beq_eq_false_iff_ne.mpr
  intro heq
  have hdata : (trimChars s.data).map Char.toLower = ("no group" : String).data := by
    have : (jsToLower (jsTrim s)).data = ("no group" : String).data := by rw [heq]
    simpa [jsToLower, jsTrim] using this
  have hmem : ':' ∈ (trimChars s.data).map Char.toLower :=
    List.mem_map.mpr ⟨':', mem_trimChars_of_mem _ ':' (by decide) h, by decide⟩
  rw [hdata] at hmem
  exact absurd hmem (by decide)

theorem jsDateToString_some_colon (t : Int) : ':' ∈ (jsDateToString (some t)).data := by
  unfold jsDateToString
  dsimp only
  simp +decide [String.data_append, List.mem_append]

theorem notNoGroup_of_non_string (k : List JSVal)
    (h : ∀ str : String, getCell k 2 ≠ JSVal.s str) :
    isNoGroupRow_ (some k) = false := by
  have heq : isNoGroupRow_ (some k) =
      (jsToLower (jsTrim (if (getCell k 2).truthy then (getCell k 2).toStr else "")) ==
        "no group") := rfl
  rw [heq]
  rcases hcell : getCell k 2 with _ | _ | x | x | str | t
  · decide
  · decide
  · cases x <;> decide
  · by_cases hx : x = 0
    · subst hx
      decide
    · have htr : (JSVal.n x).truthy = true := by simp [JSVal.truthy, hx]
      rw [htr, if_pos rfl]
      exact normalized_ne_noGroup_of_digitDash _ (intToString_subset x)
  · exact absurd hcell (h str)
  · rcases t with _ | ts
    · decide
    · have htr : (JSVal.d (some ts)).truthy = true := rfl
      rw [htr, if_pos rfl]
      exact normalized_ne_noGroup_of_colon _ (jsDateToString_some_colon ts)

/-- C10: `isNoGroupRow_` is total on every row shape — a row with fewer than
three fields reads `undefined` at index 2, a falsy location (missing, null,
empty, zero, false) is guarded to the empty string, and any non-string
location value (undefined, null, booleans, numbers, `Date` objects)
classifies the row as not no-group; likewise an empty-string location. -/
theorem c10_non_string_location :
    (∀ k : List JSVal, (∀ str : String, getCell k 2 ≠ JSVal.s str) →
      isNoGroupRow_ (some k) = false) ∧
    (∀ k : List JSVal, k.length ≤ 2 → isNoGroupRow_ (some k) = false) ∧
    (∀ k : List JSVal, getCell k 2 = JSVal.s "" → isNoGroupRow_ (some k) = false) := by
  refine ⟨notNoGroup_of_non_string, ?_, ?_⟩
  · intro k hk
    apply notNoGroup_of_non_string
    intro str hcell
    rw [show getCell k 2 = JSVal.undef from by
      unfold getCell
      exact List.getD_eq_default k JSVal.undef hk] at hcell
    exact absurd hcell (by simp)
  · intro k hcell
    have heq : isNoGroupRow_ (some k) =
        (jsToLower (jsTrim (if (getCell k 2).truthy then (getCell k 2).toStr else "")) ==
          "no group") := rfl
    rw [heq, hcell]
    decide

/-- Witness for C10: a three-field row whose location cell holds the number
42 (truthy but not a string) classifies as not no-group. -/
theorem c10_non_string_location_witness :
    isNoGroupRow_ (some [JSVal.n 0, JSVal.s "x", JSVal.n 42]) = false :=
  c10_non_string_location.1 [JSVal.n 0, JSVal.s "x", JSVal.n 42]
    (fun str => by simp [getCell])
